import Mathlib

/-!
Shallow embedding of the in-process cache / rate-limiter / load-balancer
substrate of the backend (source: `backend/api/endpoints/performance.py`,
`backend/api/auth/auth_middleware.py`, `backend/config/firebase_config.py`).

Python dictionaries are modelled as insertion-ordered association lists
(`List (String × β)`) so that iteration order — which the source relies on
for `min(dict, key=dict.get)` tie-breaking and for health-check updates —
is preserved.  Python `set` objects are modelled as duplicate-free lists
with membership-guarded insertion.  Timestamps and counters are `Int`.
-/

namespace Spec2Proof

/-- Lookup in an insertion-ordered association list; models `d.get(k)` /
`d[k]` on a Python dict (first binding wins; bindings are unique in every
state reachable through the API). -/
def alookup {β : Type} : List (String × β) → String → Option β
  | [], _ => none
  | (k, v) :: rest, key => if k = key then some v else alookup rest key

/-- Assignment `d[k] = v` on a Python dict: overwrite in place when the key
is present (keeping its position, as CPython does), else append. -/
def aset {β : Type} : List (String × β) → String → β → List (String × β)
  | [], key, v => [(key, v)]
  | (k, w) :: rest, key, v =>
      if k = key then (k, v) :: rest else (k, w) :: aset rest key v

/-- Removal `d.pop(k, None)` on a Python dict (bindings are unique in
reachable states, so removing every binding coincides with removing one). -/
def eraseKey {β : Type} (l : List (String × β)) (key : String) :
    List (String × β) :=
  l.filter (fun p => p.1 ≠ key)

/-- Membership-guarded insertion, modelling Python `set.add`. -/
def addKey (reg : List String) (k : String) : List String :=
  if k ∈ reg then reg else reg ++ [k]

/-- Removal, modelling Python `set.discard`. -/
def discardKey (reg : List String) (k : String) : List String :=
  reg.filter (fun x => x ≠ k)

/-- Does the character list `needle` occur at the head of `hay`? -/
def leadsWith : List Char → List Char → Bool
  | [], _ => true
  | _ :: _, [] => false
  | a :: as, b :: bs => a = b && leadsWith as bs

/-- Does the character list `needle` occur contiguously inside `hay`? -/
def subSeg (needle : List Char) : List Char → Bool
  | [] => needle.isEmpty
  | b :: bs => leadsWith needle (b :: bs) || subSeg needle bs

/-- Python's `needle in hay` substring test on strings. -/
def strContains (hay needle : String) : Bool :=
  subSeg needle.toList hay.toList

/-! ### Cache manager (`CacheManager` in `performance.py`)

The in-memory fallback path (`iron_available == False`) is embedded
directly; the external IronCache path is modelled separately for the
failure-semantics claim, with the backend call abstracted as a function
that either yields a value or raises. -/

/-- State of `CacheManager` on the in-memory path: `memory_cache` maps a key
to its value and absolute expiry time (`expires_at = set-time + ttl`);
`key_registry` is the set of keys ever stored, kept so keys can be
enumerated. -/
structure CacheManager (V : Type) where
  memory_cache : List (String × (V × Int))
  key_registry : List String

/-- The empty cache, as built by `CacheManager.__init__`. -/
def CacheManager.init (V : Type) : CacheManager V := ⟨[], []⟩

/-- `CacheManager.set` (memory path): store the value with
`expires_at = now + ttl` and register the key. -/
def CacheManager.set {V : Type} (cm : CacheManager V) (key : String) (value : V)
    (ttl : Int) (now : Int) : CacheManager V :=
  { memory_cache := aset cm.memory_cache key (value, now + ttl)
    key_registry := addKey cm.key_registry key }

/-- `CacheManager.get` (memory path): return the value when present and
`expires_at > now`, else `None`; a missing key is a normal miss. -/
def CacheManager.get {V : Type} (cm : CacheManager V) (key : String)
    (now : Int) : Option V :=
  match alookup cm.memory_cache key with
  | some e => if now < e.2 then some e.1 else none
  | none => none

/-- `CacheManager.delete` (memory path): `memory_cache.pop(key, None)`.
The key registry is not touched by the source. -/
def CacheManager.delete {V : Type} (cm : CacheManager V) (key : String) :
    CacheManager V :=
  { cm with memory_cache := eraseKey cm.memory_cache key }

/-- `CacheManager.list_keys` on the fallback path: the key registry. -/
def CacheManager.list_keys {V : Type} (cm : CacheManager V) : List String :=
  cm.key_registry

/-- `CacheManager.invalidate_by_tag`: iterate over a snapshot of
`list_keys()` and drop every key containing `tag` as a substring from both
the store and the registry. -/
def CacheManager.invalidate_by_tag {V : Type} (cm : CacheManager V)
    (tag : String) : CacheManager V :=
  cm.list_keys.foldl
    (fun c key =>
      if strContains key tag then
        { memory_cache := eraseKey c.memory_cache key
          key_registry := discardKey c.key_registry key }
      else c)
    cm

/-- `CacheManager.clear_all`: drop every registered key. -/
def CacheManager.clear_all {V : Type} (cm : CacheManager V) : CacheManager V :=
  cm.list_keys.foldl
    (fun c key =>
      { memory_cache := eraseKey c.memory_cache key
        key_registry := discardKey c.key_registry key })
    cm

/-- Outcome of the IronCache client call inside `CacheManager.get`:
either it returns (an optional value) or it raises. -/
inductive BackendResult (V : Type) where
  | ok (v : Option V)
  | raised (msg : String)

/-- `CacheManager.get` on the IronCache path: the `try` body evaluates the
client lookup; `except Exception` turns any raise into `None`. -/
def CacheManager.get_iron {V : Type} (backend : String → BackendResult V)
    (key : String) : Option V :=
  match backend key with
  | BackendResult.ok v => v
  | BackendResult.raised _ => none

/-! ### Load balancer (`LoadBalancer` in `performance.py`) -/

/-- One value of `self.services[name]`: the instance list, the algorithm
string, the round-robin cursor (`current_index`) and the per-instance
health flags. -/
structure ServiceInfo where
  instances : List String
  algorithm : String
  current_index : Nat
  health_status : List (String × Bool)
deriving DecidableEq

/-- `LoadBalancer` state: `services` maps a service name to its
registration, `active_connections` maps it to per-instance in-flight
counts. -/
structure LoadBalancer where
  services : List (String × ServiceInfo)
  active_connections : List (String × List (String × Int))
deriving DecidableEq

/-- The empty balancer, as built by `LoadBalancer.__init__`. -/
def LoadBalancer.init : LoadBalancer := ⟨[], []⟩

/-- `LoadBalancer.register_service`: overwrite the registration for
`service_name` with cursor `0`, every instance healthy, and every
in-flight count `0`. -/
def LoadBalancer.register_service (lb : LoadBalancer) (service_name : String)
    (instances : List String) (algorithm : String) : LoadBalancer :=
  { services := aset lb.services service_name
      { instances := instances
        algorithm := algorithm
        current_index := 0
        health_status := instances.map (fun i => (i, true)) }
    active_connections := aset lb.active_connections service_name
      (instances.map (fun i => (i, 0))) }

/-- `d[k] += 1` on an association list of counters (the key is present in
every state reachable through the API; a missing key — a `KeyError` in
Python — leaves the list unchanged here). -/
def bumpVal : List (String × Int) → String → List (String × Int)
  | [], _ => []
  | (k, v) :: rest, key =>
      if k = key then (k, v + 1) :: rest else (k, v) :: bumpVal rest key

/-- Increment `active_connections[name][inst]`. -/
def bumpConn (ac : List (String × List (String × Int))) (name inst : String) :
    List (String × List (String × Int)) :=
  match alookup ac name with
  | none => ac
  | some conns => aset ac name (bumpVal conns inst)

/-- Python's `min(d, key=d.get)` over an insertion-ordered dict: the first
binding attaining the minimal count (`min` keeps the earlier element on
ties).  `none` only on the empty dict, where Python would raise. -/
def pyMinPair : List (String × Int) → Option (String × Int)
  | [] => none
  | p :: rest =>
      match pyMinPair rest with
      | none => some p
      | some q => if q.2 < p.2 then some q else some p

/-- `LoadBalancer.get_next_instance`: returns the selected instance (or
`none` for an unknown service or an empty instance list) together with the
updated balancer; selection increments the instance's in-flight count. -/
def LoadBalancer.get_next_instance (lb : LoadBalancer)
    (service_name : String) : Option String × LoadBalancer :=
  match alookup lb.services service_name with
  | none => (none, lb)
  | some service =>
      if service.instances = [] then (none, lb)
      else if service.algorithm = "round_robin" then
        let inst := service.instances.getD service.current_index ""
        let service' := { service with
          current_index := (service.current_index + 1) % service.instances.length }
        (some inst,
          { services := aset lb.services service_name service'
            active_connections := bumpConn lb.active_connections service_name inst })
      else if service.algorithm = "least_connections" then
        match alookup lb.active_connections service_name with
        | none => (none, lb)
        | some conns =>
            match pyMinPair conns with
            | none => (none, lb)
            | some m =>
                let ac := aset lb.active_connections service_name (bumpVal conns m.1)
                (some m.1, { lb with active_connections := ac })
      else
        let inst := service.instances.getD 0 ""
        let ac := bumpConn lb.active_connections service_name inst
        (some inst, { lb with active_connections := ac })

/-- `LoadBalancer.release_instance`: decrement the count, floored at zero;
a no-op when the service or the instance is unknown. -/
def LoadBalancer.release_instance (lb : LoadBalancer)
    (service_name inst : String) : LoadBalancer :=
  match alookup lb.active_connections service_name with
  | none => lb
  | some conns =>
      match alookup conns inst with
      | none => lb
      | some v =>
          let ac := aset lb.active_connections service_name (aset conns inst (max 0 (v - 1)))
          { lb with active_connections := ac }

/-- Outcome of the HTTP GET probe issued by `health_check` to one
instance: a response with a status code, or a raised exception. -/
inductive ProbeResult where
  | ok (status : Int)
  | exn

/-- `LoadBalancer.health_check`: probe every instance in order; a response
marks the instance healthy exactly when `status_code == 200`; a raised
exception is caught per-instance and marks it unhealthy, and the loop
continues with the remaining instances. -/
def LoadBalancer.health_check (lb : LoadBalancer) (service_name : String)
    (probe : String → ProbeResult) : LoadBalancer :=
  match alookup lb.services service_name with
  | none => lb
  | some service =>
      let hs := service.instances.foldl
        (fun h inst =>
          match probe inst with
          | ProbeResult.ok code => aset h inst (code == 200)
          | ProbeResult.exn => aset h inst false)
        service.health_status
      let svcs := aset lb.services service_name { service with health_status := hs }
      { lb with services := svcs }

/-- The truth value `health_check` records for one probe outcome: healthy
exactly on a response with status code `200`. -/
def probeHealthy : ProbeResult → Bool
  | ProbeResult.ok code => code == 200
  | ProbeResult.exn => false

/-- One API call against the balancer, for stating state invariants. -/
inductive LBOp where
  | reg (name : String) (instances : List String) (alg : String)
  | next (name : String)
  | rel (name : String) (inst : String)

/-- Apply one API call. -/
def stepOp (lb : LoadBalancer) : LBOp → LoadBalancer
  | LBOp.reg n i a => lb.register_service n i a
  | LBOp.next n => (lb.get_next_instance n).2
  | LBOp.rel n i => lb.release_instance n i

/-- Run a call sequence from the freshly constructed balancer. -/
def runOps (ops : List LBOp) : LoadBalancer :=
  ops.foldl stepOp LoadBalancer.init

/-- Run `n` successive `get_next_instance` calls, collecting the results. -/
def runNexts : LoadBalancer → String → Nat → List (Option String)
  | _, _, 0 => []
  | lb, name, n + 1 =>
      let r := lb.get_next_instance name
      r.1 :: runNexts r.2 name n

/-! ### Rate limiter (`AuthMiddleware` in `auth_middleware.py`)

The claims fix one `(ip, endpoint)` pair, so the state keeps the
`rate_limits` rows for that pair (one `created_at` per accepted request,
each with `count = 1`) and the `ip_blocklist` row for that IP. -/

/-- A `(requests, window)` entry of `RATE_LIMITS`. -/
structure RatePolicy where
  requests : Int
  window : Int

/-- `SECURITY_CONFIG["ip_block_duration"]` (24 hours, in seconds). -/
def ip_block_duration : Int := 86400

/-- Persistent state for one `(ip, endpoint)`: the accepted-request
timestamps and the active block's `blocked_until`, if any. -/
structure RateState where
  requests : List Int
  blocked_until : Option Int
deriving DecidableEq

/-- No recorded requests, no block. -/
def RateState.init : RateState := ⟨[], none⟩

/-- `AuthMiddleware.is_ip_blocked`: blocked while `blocked_until > now`;
an expired block is deleted on lookup. -/
def is_ip_blocked (st : RateState) (now : Int) : Bool × RateState :=
  match st.blocked_until with
  | some b => if now < b then (true, st) else (false, { st with blocked_until := none })
  | none => (false, st)

/-- `AuthMiddleware.get_rate_limit_count`: sum of the `count` columns
(each `1`) of the rows with `created_at >= window_start`. -/
def get_rate_limit_count (st : RateState) (window_start : Int) : Int :=
  ((st.requests.filter (fun t => window_start ≤ t)).length : Int)

/-- `AuthMiddleware.check_rate_limit` for the fixed `(ip, endpoint)`:
reject while the IP is blocked; then, with `window_start = now - window`,
reject and block the IP for `ip_block_duration` when the windowed count
has reached `requests`; otherwise record the request and allow. -/
def check_rate_limit (pol : RatePolicy) (st : RateState) (now : Int) :
    Bool × RateState :=
  let blk := is_ip_blocked st now
  if blk.1 then (false, blk.2)
  else
    let window_start := now - pol.window
    if pol.requests ≤ get_rate_limit_count blk.2 window_start then
      (false, { blk.2 with blocked_until := some (now + ip_block_duration) })
    else
      (true, { blk.2 with requests := blk.2.requests ++ [now] })

/-- Run `check_rate_limit` at the given call times, collecting the
allow/reject outcomes. -/
def runChecks (pol : RatePolicy) : RateState → List Int → List Bool
  | _, [] => []
  | st, t :: ts =>
      let r := check_rate_limit pol st t
      r.1 :: runChecks pol r.2 ts

/-- The state left behind after running `check_rate_limit` at the given
call times. -/
def runState (pol : RatePolicy) (st : RateState) (ts : List Int) : RateState :=
  ts.foldl (fun s t => (check_rate_limit pol s t).2) st

/-! ### Association-list lemmas -/

theorem alookup_nil {β : Type} (k : String) :
    alookup ([] : List (String × β)) k = none := rfl

theorem alookup_cons {β : Type} (k0 : String) (v0 : β) (rest : List (String × β))
    (k : String) :
    alookup ((k0, v0) :: rest) k = if k0 = k then some v0 else alookup rest k := rfl

theorem aset_nil {β : Type} (k : String) (v : β) :
    aset ([] : List (String × β)) k v = [(k, v)] := rfl

theorem aset_cons {β : Type} (k0 : String) (v0 : β) (rest : List (String × β))
    (k : String) (v : β) :
    aset ((k0, v0) :: rest) k v
      = if k0 = k then (k0, v) :: rest else (k0, v0) :: aset rest k v := rfl

theorem bumpVal_nil (k : String) : bumpVal [] k = [] := rfl

theorem bumpVal_cons (k0 : String) (v0 : Int) (rest : List (String × Int))
    (k : String) :
    bumpVal ((k0, v0) :: rest) k
      = if k0 = k then (k0, v0 + 1) :: rest else (k0, v0) :: bumpVal rest k := rfl

theorem alookup_aset_self {β : Type} (l : List (String × β)) (k : String) (v : β) :
    alookup (aset l k v) k = some v := by
  induction l with
  | nil => simp [aset_nil, alookup_cons]
  | cons p rest ih =>
      obtain ⟨k0, v0⟩ := p
      rw [aset_cons]
      by_cases h : k0 = k
      · rw [if_pos h, alookup_cons, if_pos h]
      · rw [if_neg h, alookup_cons, if_neg h, ih]

theorem alookup_aset_ne {β : Type} (l : List (String × β)) (k k' : String) (v : β)
    (h : k' ≠ k) : alookup (aset l k v) k' = alookup l k' := by
  have hkk : ¬ k = k' := fun e => h e.symm
  induction l with
  | nil => simp [aset_nil, alookup_cons, alookup_nil, hkk]
  | cons p rest ih =>
      obtain ⟨k0, v0⟩ := p
      rw [aset_cons]
      by_cases hk : k0 = k
      · subst hk
        rw [if_pos rfl, alookup_cons, alookup_cons, if_neg hkk, if_neg hkk]
      · rw [if_neg hk, alookup_cons, alookup_cons, ih]

theorem mem_aset {β : Type} {l : List (String × β)} {k : String} {v : β}
    {p : String × β} (h : p ∈ aset l k v) : p = (k, v) ∨ p ∈ l := by
  induction l with
  | nil =>
      rw [aset_nil] at h
      exact Or.inl (List.mem_singleton.mp h)
  | cons q rest ih =>
      obtain ⟨k0, v0⟩ := q
      rw [aset_cons] at h
      by_cases hk : k0 = k
      · rw [if_pos hk] at h
        rcases List.mem_cons.mp h with h1 | h1
        · subst hk; exact Or.inl h1
        · exact Or.inr (List.mem_cons_of_mem _ h1)
      · rw [if_neg hk] at h
        rcases List.mem_cons.mp h with h1 | h1
        · exact Or.inr (h1 ▸ List.mem_cons_self _ _)
        · rcases ih h1 with h2 | h2
          · exact Or.inl h2
          · exact Or.inr (List.mem_cons_of_mem _ h2)

theorem alookup_mem {β : Type} {l : List (String × β)} {k : String} {v : β}
    (h : alookup l k = some v) : (k, v) ∈ l := by
  induction l with
  | nil => exact absurd h (by simp [alookup_nil])
  | cons p rest ih =>
      obtain ⟨k0, v0⟩ := p
      rw [alookup_cons] at h
      by_cases hk : k0 = k
      · rw [if_pos hk] at h
        have : v0 = v := Option.some.inj h
        subst hk; subst this
        exact List.mem_cons_self _ _
      · rw [if_neg hk] at h
        exact List.mem_cons_of_mem _ (ih h)

theorem alookup_bumpVal_self (l : List (String × Int)) (k : String) :
    alookup (bumpVal l k) k = (alookup l k).map (fun v => v + 1) := by
  induction l with
  | nil => simp [bumpVal_nil, alookup_nil]
  | cons p rest ih =>
      obtain ⟨k0, v0⟩ := p
      rw [bumpVal_cons]
      by_cases hk : k0 = k
      · rw [if_pos hk, alookup_cons, alookup_cons, if_pos hk, if_pos hk]
        rfl
      · rw [if_neg hk, alookup_cons, alookup_cons, if_neg hk, if_neg hk, ih]

theorem alookup_bumpVal_ne (l : List (String × Int)) (k k' : String)
    (h : k' ≠ k) : alookup (bumpVal l k) k' = alookup l k' := by
  induction l with
  | nil => simp [bumpVal_nil]
  | cons p rest ih =>
      obtain ⟨k0, v0⟩ := p
      rw [bumpVal_cons]
      by_cases hk : k0 = k
      · have hne : ¬ k0 = k' := fun e => h (hk ▸ e ▸ rfl)
        rw [if_pos hk, alookup_cons, alookup_cons, if_neg hne, if_neg hne]
      · rw [if_neg hk, alookup_cons, alookup_cons, ih]

theorem mem_bumpVal {l : List (String × Int)} {k : String} {p : String × Int}
    (h : p ∈ bumpVal l k) : p ∈ l ∨ ∃ q ∈ l, p = (q.1, q.2 + 1) := by
  induction l with
  | nil => rw [bumpVal_nil] at h; exact absurd h (List.not_mem_nil p)
  | cons q0 rest ih =>
      obtain ⟨k0, v0⟩ := q0
      rw [bumpVal_cons] at h
      by_cases hk : k0 = k
      · rw [if_pos hk] at h
        rcases List.mem_cons.mp h with h1 | h1
        · exact Or.inr ⟨(k0, v0), List.mem_cons_self _ _, h1⟩
        · exact Or.inl (List.mem_cons_of_mem _ h1)
      · rw [if_neg hk] at h
        rcases List.mem_cons.mp h with h1 | h1
        · exact Or.inl (h1 ▸ List.mem_cons_self _ _)
        · rcases ih h1 with h2 | ⟨q, hq, hp⟩
          · exact Or.inl (List.mem_cons_of_mem _ h2)
          · exact Or.inr ⟨q, List.mem_cons_of_mem _ hq, hp⟩

theorem alookup_eraseKey_self {β : Type} (l : List (String × β)) (k : String) :
    alookup (eraseKey l k) k = none := by
  induction l with
  | nil => rfl
  | cons p rest ih =>
      obtain ⟨k0, v0⟩ := p
      by_cases hk : k0 = k
      · simpa [eraseKey, hk] using ih
      · simpa [eraseKey, alookup_cons, hk, List.filter] using ih

theorem alookup_eraseKey_ne {β : Type} (l : List (String × β)) (k k' : String)
    (h : k' ≠ k) : alookup (eraseKey l k) k' = alookup l k' := by
  induction l with
  | nil => rfl
  | cons p rest ih =>
      obtain ⟨k0, v0⟩ := p
      by_cases hk : k0 = k
      · subst hk
        have hne : ¬ k0 = k' := fun e => h e.symm
        have he : eraseKey ((k0, v0) :: rest) k0 = eraseKey rest k0 := by
          simp [eraseKey]
        rw [he, ih, alookup_cons, if_neg hne]
      · have he : eraseKey ((k0, v0) :: rest) k = (k0, v0) :: eraseKey rest k := by
          simp [eraseKey, hk]
        rw [he, alookup_cons, alookup_cons, ih]

theorem mem_addKey_iff (reg : List String) (k k' : String) :
    k' ∈ addKey reg k ↔ k' = k ∨ k' ∈ reg := by
  unfold addKey
  by_cases h : k ∈ reg
  · rw [if_pos h]
    constructor
    · exact fun hm => Or.inr hm
    · intro hm
      rcases hm with rfl | hm
      · exact h
      · exact hm
  · rw [if_neg h]
    rw [List.mem_append, List.mem_singleton]
    tauto

theorem mem_discardKey_iff (reg : List String) (k k' : String) :
    k' ∈ discardKey reg k ↔ k' ∈ reg ∧ k' ≠ k := by
  simp [discardKey]

/-! ### Health-check fold lemmas -/

theorem health_step_eq (probe : String → ProbeResult) :
    (fun (h : List (String × Bool)) inst =>
        match probe inst with
        | ProbeResult.ok code => aset h inst (code == 200)
        | ProbeResult.exn => aset h inst false)
      = fun h inst => aset h inst (probeHealthy (probe inst)) := by
  funext h inst
  cases hp : probe inst <;> simp [probeHealthy]

theorem healthFold_alookup (probe : String → ProbeResult) (l : List String)
    (h : List (String × Bool)) (inst : String) :
    alookup (l.foldl (fun h i => aset h i (probeHealthy (probe i))) h) inst
      = if inst ∈ l then some (probeHealthy (probe inst)) else alookup h inst := by
  induction l generalizing h with
  | nil => simp
  | cons a l ih =>
      rw [List.foldl_cons, ih]
      by_cases hl : inst ∈ l
      · simp [hl, List.mem_cons]
      · by_cases ha : inst = a
        · subst ha
          simp [hl, alookup_aset_self]
        · simp [hl, ha, List.mem_cons, alookup_aset_ne _ _ _ _ ha]

/-! ### Invalidate-by-tag fold lemmas -/

theorem invFold_alookup {V : Type} (tag : String) (ks : List String)
    (c : CacheManager V) (key : String) :
    alookup ((ks.foldl (fun c key =>
        if strContains key tag then
          { memory_cache := eraseKey c.memory_cache key
            key_registry := discardKey c.key_registry key }
        else c) c).memory_cache) key
      = if key ∈ ks ∧ strContains key tag then none
        else alookup c.memory_cache key := by
  induction ks generalizing c with
  | nil => simp
  | cons a ks ih =>
      rw [List.foldl_cons, ih]
      by_cases hc : strContains key tag = true
      · by_cases hmem : key ∈ ks
        · simp [hmem, hc, List.mem_cons]
        · by_cases hak : key = a
          · subst hak
            simp [hmem, hc, List.mem_cons, alookup_eraseKey_self]
          · by_cases hca : strContains a tag = true
            · simp [hmem, hc, hca, hak, List.mem_cons,
                alookup_eraseKey_ne _ _ _ hak]
            · simp [hmem, hc, hca, hak, List.mem_cons]
      · have hak : key ≠ a ∨ ¬ strContains a tag = true := by
          by_cases hka : key = a
          · exact Or.inr (hka ▸ hc)
          · exact Or.inl hka
        by_cases hca : strContains a tag = true
        · rcases hak with hak | hak
          · simp [hc, hca, alookup_eraseKey_ne _ _ _ hak]
          · exact absurd hca hak
        · simp [hc, hca]

theorem invFold_mem_registry {V : Type} (tag : String) (ks : List String)
    (c : CacheManager V) (key : String) :
    (key ∈ (ks.foldl (fun c key =>
        if strContains key tag then
          { memory_cache := eraseKey c.memory_cache key
            key_registry := discardKey c.key_registry key }
        else c) c).key_registry)
      ↔ key ∈ c.key_registry ∧ ¬(key ∈ ks ∧ strContains key tag) := by
  induction ks generalizing c with
  | nil => simp
  | cons a ks ih =>
      rw [List.foldl_cons, ih]
      by_cases hc : strContains key tag = true
      · by_cases hak : key = a
        · subst hak
          simp [hc, List.mem_cons, mem_discardKey_iff]
        · by_cases hca : strContains a tag = true
          · simp [hc, hca, hak, List.mem_cons, mem_discardKey_iff]
          · simp [hc, hca, hak, List.mem_cons]
      · by_cases hca : strContains a tag = true
        · have hak : key ≠ a := fun e => hc (e ▸ hca)
          simp [hc, hca, hak, List.mem_cons, mem_discardKey_iff]
        · simp [hc, hca]

/-! ### Python `min(d, key=d.get)` characterization -/

theorem pyMinPair_cons (p : String × Int) (l : List (String × Int)) :
    pyMinPair (p :: l)
      = match pyMinPair l with
        | none => some p
        | some q => if q.2 < p.2 then some q else some p := rfl

theorem pyMinPair_eq_none {l : List (String × Int)} (h : pyMinPair l = none) :
    l = [] := by
  cases l with
  | nil => rfl
  | cons p rest =>
      rw [pyMinPair_cons] at h
      cases h2 : pyMinPair rest with
      | none => rw [h2] at h; exact Option.noConfusion h
      | some q =>
          rw [h2] at h
          by_cases hv : q.2 < p.2
          · simp [hv] at h
          · simp [hv] at h

theorem pyMinPair_spec (l : List (String × Int)) (hne : l ≠ []) :
    ∃ pre post k v, pyMinPair l = some (k, v) ∧ l = pre ++ (k, v) :: post
      ∧ (∀ p ∈ pre, v < p.2) ∧ (∀ p ∈ l, v ≤ p.2) := by
  induction l with
  | nil => exact absurd rfl hne
  | cons p rest ih =>
      obtain ⟨k0, v0⟩ := p
      cases hm : pyMinPair rest with
      | none =>
          have hrest : rest = [] := pyMinPair_eq_none hm
          subst hrest
          refine ⟨[], [], k0, v0, ?_, rfl, by simp, by simp⟩
          rw [pyMinPair_cons, hm]
      | some q =>
          have hrne : rest ≠ [] := by
            intro h; subst h; simp [pyMinPair] at hm
          obtain ⟨pre, post, k1, v1, hmin, hdec, hpre, hall⟩ := ih hrne
          have hq : q = (k1, v1) := Option.some.inj (hm.symm.trans hmin)
          subst hq
          by_cases hv : v1 < v0
          · refine ⟨(k0, v0) :: pre, post, k1, v1, ?_, by rw [hdec, List.cons_append], ?_, ?_⟩
            · rw [pyMinPair_cons, hm]
              simp [hv]
            · intro p hp
              rcases List.mem_cons.mp hp with rfl | hp
              · exact hv
              · exact hpre p hp
            · intro p hp
              rcases List.mem_cons.mp hp with rfl | hp
              · exact le_of_lt hv
              · exact hall p hp
          · refine ⟨[], rest, k0, v0, ?_, rfl, by simp, ?_⟩
            · rw [pyMinPair_cons, hm]
              simp [hv]
            · intro p hp
              rcases List.mem_cons.mp hp with rfl | hp
              · exact le_refl _
              · exact le_trans (not_lt.mp hv) (hall p hp)

theorem alookup_of_decomp {β : Type} (pre post : List (String × β)) (k : String)
    (v : β) (hnd : ((pre ++ (k, v) :: post).map Prod.fst).Nodup) :
    alookup (pre ++ (k, v) :: post) k = some v := by
  induction pre with
  | nil => simp [alookup_cons]
  | cons p pre ih =>
      obtain ⟨k0, v0⟩ := p
      have hk : k ∈ ((pre ++ (k, v) :: post).map Prod.fst) :=
        List.mem_map.mpr ⟨(k, v), List.mem_append_right _ (List.mem_cons_self _ _), rfl⟩
      rw [List.cons_append, List.map_cons, List.nodup_cons] at hnd
      have hne : ¬ k0 = k := fun e => hnd.1 (e ▸ hk)
      rw [List.cons_append, alookup_cons, if_neg hne]
      exact ih hnd.2

/-! ### Load-balancer state invariant -/

/-- Every in-flight count in one service's connection map is non-negative. -/
def connsNonneg (conns : List (String × Int)) : Prop :=
  ∀ p ∈ conns, 0 ≤ p.2

/-- The balancer invariant: for every registered service the round-robin
cursor is a valid position whenever the instance list is non-empty (and is
`0` when it is empty), and every active-connection count is non-negative. -/
def lbInv (lb : LoadBalancer) : Prop :=
  (∀ p ∈ lb.services,
      (p.2.instances ≠ [] → p.2.current_index < p.2.instances.length)
      ∧ (p.2.instances = [] → p.2.current_index = 0))
  ∧ ∀ q ∈ lb.active_connections, connsNonneg q.2

theorem connsNonneg_bumpVal {conns : List (String × Int)} {k : String}
    (h : connsNonneg conns) : connsNonneg (bumpVal conns k) := by
  intro p hp
  rcases mem_bumpVal hp with hp | ⟨q, hq, rfl⟩
  · exact h p hp
  · have := h q hq
    omega

theorem lbInv_register {lb : LoadBalancer} (h : lbInv lb) (n : String)
    (i : List String) (a : String) : lbInv (lb.register_service n i a) := by
  constructor
  · intro p hp
    rcases mem_aset hp with rfl | hold
    · refine ⟨fun hne => ?_, fun _ => rfl⟩
      exact List.length_pos.mpr hne
    · exact h.1 p hold
  · intro q hq
    rcases mem_aset hq with rfl | hold
    · intro p hp
      rcases List.mem_map.mp hp with ⟨x, _, rfl⟩
      exact le_refl 0
    · exact h.2 q hold

theorem lbInv_bumpConn {lb : LoadBalancer} (h : lbInv lb) (n inst : String) :
    ∀ q ∈ bumpConn lb.active_connections n inst, connsNonneg q.2 := by
  intro q hq
  unfold bumpConn at hq
  cases ha : alookup lb.active_connections n with
  | none => rw [ha] at hq; exact h.2 q hq
  | some conns =>
      rw [ha] at hq
      rcases mem_aset hq with rfl | hold
      · exact connsNonneg_bumpVal (h.2 (n, conns) (alookup_mem ha))
      · exact h.2 q hold

theorem lbInv_next {lb : LoadBalancer} (h : lbInv lb) (n : String) :
    lbInv (lb.get_next_instance n).2 := by
  unfold LoadBalancer.get_next_instance
  split
  · exact h
  · rename_i svc hs
    split_ifs with hi halg hlc
    · exact h
    · constructor
      · intro p hp
        rcases mem_aset hp with rfl | hold
        · refine ⟨fun _ => ?_, fun he => absurd he hi⟩
          exact Nat.mod_lt _ (List.length_pos.mpr hi)
        · exact h.1 p hold
      · exact lbInv_bumpConn h n _
    · split
      · exact h
      · rename_i conns ha
        split
        · exact h
        · rename_i m hmp
          refine ⟨h.1, ?_⟩
          intro q hq
          rcases mem_aset hq with rfl | hold
          · exact connsNonneg_bumpVal (h.2 (n, conns) (alookup_mem ha))
          · exact h.2 q hold
    · exact ⟨h.1, lbInv_bumpConn h n _⟩

theorem lbInv_release {lb : LoadBalancer} (h : lbInv lb) (n inst : String) :
    lbInv (lb.release_instance n inst) := by
  unfold LoadBalancer.release_instance
  split
  · exact h
  · rename_i conns ha
    split
    · exact h
    · rename_i v hc
      refine ⟨h.1, ?_⟩
      intro q hq
      rcases mem_aset hq with rfl | hold
      · intro p hp
        rcases mem_aset hp with rfl | hold2
        · exact le_max_left 0 _
        · exact h.2 (n, conns) (alookup_mem ha) p hold2
      · exact h.2 q hold

theorem lbInv_step {lb : LoadBalancer} (h : lbInv lb) (op : LBOp) :
    lbInv (stepOp lb op) := by
  cases op with
  | reg n i a => exact lbInv_register h n i a
  | next n => exact lbInv_next h n
  | rel n i => exact lbInv_release h n i

theorem lbInv_foldl (ops : List LBOp) :
    ∀ lb, lbInv lb → lbInv (ops.foldl stepOp lb) := by
  induction ops with
  | nil => intro lb h; exact h
  | cons op ops ih =>
      intro lb h
      rw [List.foldl_cons]
      exact ih _ (lbInv_step h op)

/-! ### Claims -/

/-- C1, counterexample: with policy `max = 5, window = 60` and no
pre-existing block, six calls at time `0` give five allows and a
rejection — but the seventh call at time `61`, made after the 60-second
window has elapsed, is still rejected (the sixth call blocked the IP for
`ip_block_duration`), contradicting the claim that it is allowed again. -/
theorem c1_counterexample :
    runChecks ⟨5, 60⟩ RateState.init [0, 0, 0, 0, 0, 0] = [true, true, true, true, true, false]
      ∧ ¬ (check_rate_limit ⟨5, 60⟩ (runState ⟨5, 60⟩ RateState.init [0, 0, 0, 0, 0, 0]) 61).1 = true := by
  decide

/-- C1 (amended): with policy `max = 5, window = 60` and no pre-existing
block, the first five calls are allowed and the sixth is rejected; the
sixth rejection blocks the IP until `0 + ip_block_duration = 86400`, so a
call at any time `t` with `60 < t < 86400` — after the window has elapsed
— is still rejected; only a call after the block expires (`u > 86400`) is
allowed again. -/
theorem c1_rate_limiter_escalates (t u : Int) (_ht0 : 60 < t) (ht1 : t < 86400)
    (hu : 86400 < u) :
    runChecks ⟨5, 60⟩ RateState.init [0, 0, 0, 0, 0, 0]
        = [true, true, true, true, true, false]
      ∧ runState ⟨5, 60⟩ RateState.init [0, 0, 0, 0, 0, 0]
        = ⟨[0, 0, 0, 0, 0], some 86400⟩
      ∧ (check_rate_limit ⟨5, 60⟩ ⟨[0, 0, 0, 0, 0], some 86400⟩ t).1 = false
      ∧ (check_rate_limit ⟨5, 60⟩
          (check_rate_limit ⟨5, 60⟩ ⟨[0, 0, 0, 0, 0], some 86400⟩ t).2 u).1 = true := by
  have hst : (check_rate_limit ⟨5, 60⟩ ⟨[0, 0, 0, 0, 0], some 86400⟩ t)
      = (false, ⟨[0, 0, 0, 0, 0], some 86400⟩) := by
    simp [check_rate_limit, is_ip_blocked, ht1]
  refine ⟨by decide, by decide, by rw [hst], ?_⟩
  rw [hst]
  have hnb : ¬ u < 86400 := by omega
  have hfil : ∀ x ∈ ([0, 0, 0, 0, 0] : List Int), ¬ u - 60 ≤ x := by
    intro x hx
    simp at hx
    omega
  simp only [check_rate_limit, is_ip_blocked, hnb, if_false, ite_false,
    get_rate_limit_count]
  rw [List.filter_eq_nil_iff.mpr (by intro a ha; simpa using hfil a ha)]
  norm_num

/-- C1 witness: the amended theorem applied at `t = 61`, `u = 86401`. -/
theorem c1_rate_limiter_escalates_witness :
    runChecks ⟨5, 60⟩ RateState.init [0, 0, 0, 0, 0, 0]
        = [true, true, true, true, true, false]
      ∧ runState ⟨5, 60⟩ RateState.init [0, 0, 0, 0, 0, 0]
        = ⟨[0, 0, 0, 0, 0], some 86400⟩
      ∧ (check_rate_limit ⟨5, 60⟩ ⟨[0, 0, 0, 0, 0], some 86400⟩ 61).1 = false
      ∧ (check_rate_limit ⟨5, 60⟩
          (check_rate_limit ⟨5, 60⟩ ⟨[0, 0, 0, 0, 0], some 86400⟩ 61).2 86401).1 = true :=
  c1_rate_limiter_escalates 61 86401 (by decide) (by decide) (by decide)

/-- C2, counterexample: `register_service` with an empty instance list is
neither rejected nor a no-op — it replaces the prior registration of `"s"`
(which had instance `"A"`) with a zero-instance registration. -/
theorem c2_counterexample :
    alookup (LoadBalancer.init.register_service "s" ["A"] "round_robin").services "s"
        = some ⟨["A"], "round_robin", 0, [("A", true)]⟩
      ∧ alookup ((LoadBalancer.init.register_service "s" ["A"]
            "round_robin").register_service "s" [] "round_robin").services "s"
        = some ⟨[], "round_robin", 0, []⟩ := by
  decide

/-- C2 (amended): `register_service` with an empty instance list installs a
zero-instance registration, replacing any prior registration under that
name; the resulting registration is unusable in the sense that
`get_next_instance` then returns `none`. -/
theorem c2_empty_registration (lb : LoadBalancer) (name alg : String) :
    alookup (lb.register_service name [] alg).services name
        = some ⟨[], alg, 0, []⟩
      ∧ ((lb.register_service name [] alg).get_next_instance name).1 = none := by
  have h1 : alookup (lb.register_service name [] alg).services name
      = some ⟨[], alg, 0, []⟩ := by
    simp only [LoadBalancer.register_service, List.map_nil]
    exact alookup_aset_self _ _ _
  refine ⟨h1, ?_⟩
  unfold LoadBalancer.get_next_instance
  rw [h1]
  rfl

/-- C3, counterexample: a probe answering status `204` — a 2xx success —
is marked unhealthy by `health_check`, because the code tests
`status_code == 200` exactly, not membership in the 2xx class. -/
theorem c3_counterexample :
    ((200 : Int) ≤ 204 ∧ (204 : Int) < 300)
      ∧ alookup ((LoadBalancer.init.register_service "s" ["A"]
            "round_robin").health_check "s"
            (fun _ => ProbeResult.ok 204)).services "s"
        = some ⟨["A"], "round_robin", 0, [("A", false)]⟩ := by
  constructor
  · exact ⟨by decide, by decide⟩
  · decide

/-- C3 (amended): after `health_check(name)` each registered instance's
health flag equals `probeHealthy` of its own probe outcome — `true`
exactly when the probe returned status `200` — and an exception from one
instance's probe marks only that instance unhealthy: every other
instance's flag is still set from its own outcome, and instances of other
services (or addresses not in the list) keep their previous flag. -/
theorem c3_health_check_marks (lb : LoadBalancer) (name : String)
    (svc : ServiceInfo) (probe : String → ProbeResult)
    (hs : alookup lb.services name = some svc) :
    ∃ svc2, alookup (lb.health_check name probe).services name = some svc2
      ∧ svc2.instances = svc.instances
      ∧ (∀ inst ∈ svc.instances,
          alookup svc2.health_status inst = some (probeHealthy (probe inst)))
      ∧ (∀ inst, inst ∉ svc.instances →
          alookup svc2.health_status inst = alookup svc.health_status inst) := by
  unfold LoadBalancer.health_check
  rw [hs]
  refine ⟨_, alookup_aset_self _ _ _, rfl, ?_, ?_⟩
  · intro inst hinst
    show alookup (svc.instances.foldl _ svc.health_status) inst = _
    rw [health_step_eq probe, healthFold_alookup, if_pos hinst]
  · intro inst hinst
    show alookup (svc.instances.foldl _ svc.health_status) inst = _
    rw [health_step_eq probe, healthFold_alookup, if_neg hinst]

/-- C3 witness: the amended theorem applied to a service with instances
`A`, `B`, `C` where `B`'s probe raises and `A`, `C` answer `200`. -/
theorem c3_health_check_marks_witness :
    ∃ svc2, alookup ((LoadBalancer.init.register_service "s" ["A", "B", "C"]
        "round_robin").health_check "s"
        (fun i => if i = "B" then ProbeResult.exn else ProbeResult.ok 200)).services "s"
      = some svc2
      ∧ svc2.instances = (⟨["A", "B", "C"], "round_robin", 0,
          [("A", true), ("B", true), ("C", true)]⟩ : ServiceInfo).instances
      ∧ (∀ inst ∈ (⟨["A", "B", "C"], "round_robin", 0,
          [("A", true), ("B", true), ("C", true)]⟩ : ServiceInfo).instances,
          alookup svc2.health_status inst = some (probeHealthy
            ((fun i => if i = "B" then ProbeResult.exn else ProbeResult.ok 200) inst)))
      ∧ (∀ inst, inst ∉ (⟨["A", "B", "C"], "round_robin", 0,
          [("A", true), ("B", true), ("C", true)]⟩ : ServiceInfo).instances →
          alookup svc2.health_status inst
            = alookup (⟨["A", "B", "C"], "round_robin", 0,
                [("A", true), ("B", true), ("C", true)]⟩ : ServiceInfo).health_status inst) :=
  c3_health_check_marks _ "s" _ _ (by decide)

/-- C4: `CacheManager.get` never propagates an exception: on the
IronCache path a raise from the backing client is caught and yields
`None`, and on the memory path a missing key is an ordinary miss
yielding `None` (the function is total with return type `Option`). -/
theorem c4_cache_get_no_raise :
    (∀ (V : Type) (backend : String → BackendResult V) (key msg : String),
        backend key = BackendResult.raised msg →
          CacheManager.get_iron backend key = none)
      ∧ (∀ (V : Type) (cm : CacheManager V) (key : String) (now : Int),
          alookup cm.memory_cache key = none → cm.get key now = none) := by
  constructor
  · intro V backend key msg h
    unfold CacheManager.get_iron
    rw [h]
  · intro V cm key now h
    unfold CacheManager.get
    rw [h]

/-- C4 witness: a backend that always raises yields `None`, and a lookup
of an unknown key in a fresh cache yields `None`. -/
theorem c4_cache_get_no_raise_witness :
    CacheManager.get_iron (fun _ => (BackendResult.raised "boom" : BackendResult Nat)) "k" = none
      ∧ (CacheManager.init Nat).get "k" 0 = none :=
  ⟨c4_cache_get_no_raise.1 Nat _ "k" "boom" rfl,
   c4_cache_get_no_raise.2 Nat _ "k" 0 rfl⟩

/-- C5: for `ttl > 0`, `get` returns the value just stored by `set` when
read at the time of the `set`, and reports absent at any time strictly
past `set`-time + `ttl` (the entry's `expires_at`). -/
theorem c5_cache_ttl (V : Type) (cm : CacheManager V) (key : String) (v : V)
    (ttl now t : Int) (httl : 0 < ttl) :
    (cm.set key v ttl now).get key now = some v
      ∧ (now + ttl < t → (cm.set key v ttl now).get key t = none) := by
  have hl : alookup (cm.set key v ttl now).memory_cache key = some (v, now + ttl) :=
    alookup_aset_self _ _ _
  constructor
  · simp only [CacheManager.get, hl]
    rw [if_pos (by omega)]
  · intro ht
    simp only [CacheManager.get, hl]
    rw [if_neg (by omega)]

/-- C5 witness: the theorem applied at a concrete key, value and clock. -/
theorem c5_cache_ttl_witness :
    ((CacheManager.init Nat).set "k" 7 10 100).get "k" 100 = some 7
      ∧ ((100 : Int) + 10 < 111 →
          ((CacheManager.init Nat).set "k" 7 10 100).get "k" 111 = none) :=
  c5_cache_ttl Nat _ "k" 7 10 100 111 (by decide)

/-- C6: under `round_robin`, `get_next_instance` returns
`instances[current_index]` and advances the cursor to
`(current_index + 1) mod len(instances)` without changing the instance
list; concretely, registering `[A, B, C]` and calling four times yields
`A, B, C, A`. -/
theorem c6_round_robin :
    (∀ (lb : LoadBalancer) (name : String) (svc : ServiceInfo),
        alookup lb.services name = some svc →
        svc.algorithm = "round_robin" →
        svc.instances ≠ [] →
          (lb.get_next_instance name).1
              = some (svc.instances.getD svc.current_index "")
            ∧ ∃ svc2,
                alookup (lb.get_next_instance name).2.services name = some svc2
                ∧ svc2.instances = svc.instances
                ∧ svc2.current_index = (svc.current_index + 1) % svc.instances.length)
      ∧ runNexts (LoadBalancer.init.register_service "s" ["A", "B", "C"]
            "round_robin") "s" 4
          = [some "A", some "B", some "C", some "A"] := by
  constructor
  · intro lb name svc hs halg hne
    refine ⟨?_, ?_⟩
    · unfold LoadBalancer.get_next_instance
      rw [hs]
      simp only [if_neg hne, halg, if_pos rfl, ite_true]
    · unfold LoadBalancer.get_next_instance
      rw [hs]
      simp only [if_neg hne, halg, if_pos rfl, ite_true]
      exact ⟨_, alookup_aset_self _ _ _, rfl, rfl⟩
  · decide

/-- C6 witness: the round-robin selection theorem applied to the freshly
registered service `[A, B, C]` (cursor `0`), whose first call returns
`A`. -/
theorem c6_round_robin_witness :
    ((LoadBalancer.init.register_service "s" ["A", "B", "C"]
        "round_robin").get_next_instance "s").1 = some "A" := by
  have h := c6_round_robin.1
      (LoadBalancer.init.register_service "s" ["A", "B", "C"] "round_robin") "s"
      ⟨["A", "B", "C"], "round_robin", 0, [("A", true), ("B", true), ("C", true)]⟩
      (by decide) rfl (by decide)
  exact h.1.trans (by decide)

/-- C7: under `least_connections`, `get_next_instance` returns the first
instance (in the connection map's iteration order) attaining the minimal
active-connection count — `v ≤` every count, and every earlier entry is
strictly greater — and increments exactly that instance's count; and
concretely, with counts `A = 2, B = 1, C = 0` the next pick is `C`, and
after releasing one of `A`'s connections the updated minimum is
reflected (`A` is picked, all counts being equal and `A` first). -/
theorem c7_least_connections :
    (∀ (lb : LoadBalancer) (name : String) (svc : ServiceInfo)
        (conns : List (String × Int)),
        alookup lb.services name = some svc →
        svc.algorithm = "least_connections" →
        svc.instances ≠ [] →
        alookup lb.active_connections name = some conns →
        (conns.map Prod.fst).Nodup →
        conns ≠ [] →
          ∃ pre post k v,
            conns = pre ++ (k, v) :: post
            ∧ (∀ p ∈ pre, v < p.2)
            ∧ (∀ p ∈ conns, v ≤ p.2)
            ∧ (lb.get_next_instance name).1 = some k
            ∧ alookup (lb.get_next_instance name).2.active_connections name
                = some (bumpVal conns k)
            ∧ alookup (bumpVal conns k) k = some (v + 1))
      ∧ (let lb0 : LoadBalancer :=
          { services := [("t", ⟨["A", "B", "C"], "least_connections", 0,
              [("A", true), ("B", true), ("C", true)]⟩)]
            active_connections := [("t", [("A", 2), ("B", 1), ("C", 0)])] }
         (lb0.get_next_instance "t").1 = some "C"
           ∧ (((lb0.get_next_instance "t").2.release_instance "t"
                 "A").get_next_instance "t").1 = some "A") := by
  constructor
  · intro lb name svc conns hs halg hne ha hnd hcne
    obtain ⟨pre, post, k, v, hmin, hdec, hpre, hall⟩ := pyMinPair_spec conns hcne
    have hsr : ¬ ("least_connections" : String) = "round_robin" := by decide
    have hlk : alookup conns k = some v := by
      rw [hdec]
      exact alookup_of_decomp pre post k v (by rw [← hdec]; exact hnd)
    refine ⟨pre, post, k, v, hdec, hpre, hall, ?_, ?_, ?_⟩
    · unfold LoadBalancer.get_next_instance
      rw [hs]
      simp only [if_neg hne, halg, if_neg hsr, if_pos rfl, ite_true, ha, hmin]
    · unfold LoadBalancer.get_next_instance
      rw [hs]
      simp only [if_neg hne, halg, if_neg hsr, if_pos rfl, ite_true, ha, hmin]
      exact alookup_aset_self _ _ _
    · rw [alookup_bumpVal_self, hlk]
      rfl
  · exact ⟨by decide, by decide⟩

/-- C7 witness: the selection theorem applied to the concrete state with
counts `A = 2, B = 1, C = 0`. -/
theorem c7_least_connections_witness :
    ∃ pre post k v,
      ([("A", 2), ("B", 1), ("C", 0)] : List (String × Int)) = pre ++ (k, v) :: post
      ∧ (∀ p ∈ pre, v < p.2)
      ∧ (∀ p ∈ ([("A", 2), ("B", 1), ("C", 0)] : List (String × Int)), v ≤ p.2)
      ∧ (LoadBalancer.get_next_instance
          { services := [("t", ⟨["A", "B", "C"], "least_connections", 0,
              [("A", true), ("B", true), ("C", true)]⟩)]
            active_connections := [("t", [("A", 2), ("B", 1), ("C", 0)])] } "t").1 = some k
      ∧ alookup (LoadBalancer.get_next_instance
          { services := [("t", ⟨["A", "B", "C"], "least_connections", 0,
              [("A", true), ("B", true), ("C", true)]⟩)]
            active_connections := [("t", [("A", 2), ("B", 1), ("C", 0)])] } "t").2.active_connections "t"
          = some (bumpVal [("A", 2), ("B", 1), ("C", 0)] k)
      ∧ alookup (bumpVal [("A", 2), ("B", 1), ("C", 0)] k) k = some (v + 1) :=
  c7_least_connections.1 _ "t"
    ⟨["A", "B", "C"], "least_connections", 0, [("A", true), ("B", true), ("C", true)]⟩
    [("A", 2), ("B", 1), ("C", 0)] (by decide) rfl (by decide) (by decide)
    (by decide) (by decide)

/-- C8: `invalidate_by_tag(tag)` removes exactly the registered keys
containing `tag` as a substring: afterwards `get` reports absent for
every registered key containing `tag` (and the key is unregistered),
while for every key not containing `tag` the `get` result and the
registration status are unchanged. -/
theorem c8_invalidate_by_tag (V : Type) (cm : CacheManager V) (tag key : String)
    (now : Int) :
    (key ∈ cm.key_registry → strContains key tag = true →
        (cm.invalidate_by_tag tag).get key now = none
        ∧ key ∉ (cm.invalidate_by_tag tag).key_registry)
      ∧ (strContains key tag = false →
        (cm.invalidate_by_tag tag).get key now = cm.get key now
        ∧ (key ∈ (cm.invalidate_by_tag tag).key_registry ↔ key ∈ cm.key_registry)) := by
  have hmc : alookup (cm.invalidate_by_tag tag).memory_cache key
      = if key ∈ cm.key_registry ∧ strContains key tag then none
        else alookup cm.memory_cache key := invFold_alookup tag cm.key_registry cm key
  have hreg : key ∈ (cm.invalidate_by_tag tag).key_registry
      ↔ key ∈ cm.key_registry ∧ ¬(key ∈ cm.key_registry ∧ strContains key tag) :=
    invFold_mem_registry tag cm.key_registry cm key
  constructor
  · intro hk hc
    constructor
    · unfold CacheManager.get
      rw [hmc, if_pos ⟨hk, hc⟩]
    · rw [hreg]
      intro h
      exact h.2 ⟨hk, hc⟩
  · intro hc
    constructor
    · unfold CacheManager.get
      rw [hmc, if_neg (by rw [hc]; intro h; exact Bool.false_ne_true h.2)]
    · rw [hreg]
      constructor
      · exact fun h => h.1
      · intro h
        exact ⟨h, fun h2 => Bool.false_ne_true (hc ▸ h2.2)⟩

/-- C8 witness: the theorem applied to a cache holding
`user:1:profile`, `user:1:sessions`, `user:2:profile` with tag
`user:1`. -/
theorem c8_invalidate_by_tag_witness :
    (((((CacheManager.init Nat).set "user:1:profile" 1 100 0).set "user:1:sessions" 2 100 0).set
        "user:2:profile" 3 100 0).invalidate_by_tag "user:1").get "user:1:profile" 1 = none := by
  have h := (c8_invalidate_by_tag Nat
      ((((CacheManager.init Nat).set "user:1:profile" 1 100 0).set "user:1:sessions" 2 100 0).set
        "user:2:profile" 3 100 0) "user:1" "user:1:profile" 1).1 (by decide) (by decide)
  exact h.1

/-- C9, counterexample: registering a service with an empty instance list
yields a registered service whose cursor (`0`) does not satisfy
`cursor < len(instances)` (`len = 0`), so the claimed invariant fails as
stated. -/
theorem c9_counterexample :
    alookup (runOps [LBOp.reg "s" [] "round_robin"]).services "s"
        = some ⟨[], "round_robin", 0, []⟩
      ∧ ¬ ((⟨[], "round_robin", 0, []⟩ : ServiceInfo).current_index
            < (⟨[], "round_robin", 0, []⟩ : ServiceInfo).instances.length) := by
  decide

/-- C9 (amended): over every sequence of `register_service`,
`get_next_instance` and `release_instance` operations, every
active-connection count stays non-negative and every registered
service's cursor satisfies `cursor < len(instances)` whenever its
instance list is non-empty (a service registered with an empty list
keeps cursor `0`, for which the bound is vacuous). -/
theorem c9_lb_invariant (ops : List LBOp) : lbInv (runOps ops) := by
  unfold runOps
  refine lbInv_foldl ops LoadBalancer.init ⟨?_, ?_⟩
  · intro p hp
    exact absurd hp (List.not_mem_nil p)
  · intro q hq
    exact absurd hq (List.not_mem_nil q)

/-- C9 witness: the invariant evaluated on a concrete operation
sequence. -/
theorem c9_lb_invariant_witness :
    lbInv (runOps [LBOp.reg "a" ["x", "y"] "round_robin", LBOp.next "a",
      LBOp.rel "a" "x"]) :=
  c9_lb_invariant _

/-- C10: `delete` removes the entry — a subsequent `get` reports
absent — but does not unregister the key: after `set` then `delete` the
key is still in `list_keys()`; `delete` leaves the key registry exactly
unchanged and `set` only ever adds to it, so among the store-mutating
operations only `invalidate_by_tag` and `clear_all` remove registry
entries. -/
theorem c10_delete_keeps_registry (V : Type) (cm : CacheManager V)
    (key k2 : String) (v : V) (ttl now now2 : Int) :
    ((cm.set key v ttl now).delete key).get key now2 = none
      ∧ key ∈ ((cm.set key v ttl now).delete key).list_keys
      ∧ (cm.delete key).key_registry = cm.key_registry
      ∧ (k2 ∈ cm.key_registry → k2 ∈ (cm.set key v ttl now).key_registry) := by
  refine ⟨?_, ?_, rfl, ?_⟩
  · unfold CacheManager.get
    rw [show ((cm.set key v ttl now).delete key).memory_cache
        = eraseKey (cm.set key v ttl now).memory_cache key from rfl]
    rw [alookup_eraseKey_self]
  · show key ∈ addKey cm.key_registry key
    exact (mem_addKey_iff _ _ _).mpr (Or.inl rfl)
  · intro h
    exact (mem_addKey_iff _ _ _).mpr (Or.inr h)

/-- C10 witness: the theorem applied to a cache already holding key
`"a"`, with `k2 = "a"`. -/
theorem c10_delete_keeps_registry_witness :
    ((((CacheManager.init Nat).set "a" 0 10 0).set "k" 7 10 0).delete "k").get "k" 0 = none
      ∧ "k" ∈ ((((CacheManager.init Nat).set "a" 0 10 0).set "k" 7 10 0).delete "k").list_keys
      ∧ (((CacheManager.init Nat).set "a" 0 10 0).delete "k").key_registry
          = ((CacheManager.init Nat).set "a" 0 10 0).key_registry
      ∧ ("a" ∈ ((CacheManager.init Nat).set "a" 0 10 0).key_registry →
          "a" ∈ (((CacheManager.init Nat).set "a" 0 10 0).set "k" 7 10 0).key_registry) :=
  c10_delete_keeps_registry Nat ((CacheManager.init Nat).set "a" 0 10 0) "k" "a" 7 10 0 0

end Spec2Proof
